import Mathlib

/-!
Verification development for `texmd2gfm.py`, a single-pass regex-driven
rewriting pipeline that converts LaTeX-derived Markdown to GitHub-flavored
Markdown.  Every Python regex substitution is embedded as an executable
scanner over `List Char`: at each position the scanner attempts the pattern's
(deterministic) match; on success it emits the replacement and continues after
the match, otherwise it emits one character and advances — exactly the
semantics of `re.sub`.  Scanners take a fuel argument (instantiated with the
input length at the top level) so that all definitions compute by `decide`.

Modelling conventions, noted once here:
* Python's `\s` and `str.strip`/`int` whitespace are modelled by their ASCII
  subset (space, tab, newline, carriage return, vertical tab, form feed);
  `\w` is modelled by its ASCII subset `[A-Za-z0-9_]`.  All inputs appearing
  in the claims are ASCII, where the two agree with Python.
* `str.splitlines` is modelled on the line breaks `\r\n`, `\r`, `\n`.
* Python dicts are insertion-ordered; the equation map is an association
  list, with lookup and "not in" both via `lookupL`.
-/

/-- Characters of a string literal. -/
def strL (s : String) : List Char := s.data

/-- ASCII model of Python's regex class `\s` / `str` whitespace. -/
def pyIsSpace (c : Char) : Bool :=
  c == ' ' || c == '\t' || c == '\n' || c == '\r' || c == '\x0b' || c == '\x0c'

/-- ASCII model of Python's regex class `\w` (word character). -/
def isWordC (c : Char) : Bool :=
  ('a' ≤ c && c ≤ 'z') || ('A' ≤ c && c ≤ 'Z') || ('0' ≤ c && c ≤ '9') || c == '_'

/-- The character class `[A-Za-z0-9_.-]` of the standalone-label pattern. -/
def isLabelC (c : Char) : Bool := isWordC c || c == '.' || c == '-'

/-- Lower-casing of an ASCII letter, for `re.IGNORECASE` literals. -/
def lowerC (c : Char) : Char :=
  if 'A' ≤ c && c ≤ 'Z' then Char.ofNat (c.toNat + 32) else c

/-- Greedy `\s*`: drop the maximal leading whitespace run. -/
def skipWs : List Char → List Char
  | [] => []
  | c :: rest => if pyIsSpace c then skipWs rest else c :: rest

/-- Match a literal pattern (first argument) at the head; return the rest. -/
def expectStr : List Char → List Char → Option (List Char)
  | [], cs => some cs
  | _ :: _, [] => none
  | p :: ps, c :: cs => if c = p then expectStr ps cs else none

/-- Case-insensitive literal match: the pattern is given lower-cased. -/
def expectStrCI : List Char → List Char → Option (List Char)
  | [], cs => some cs
  | _ :: _, [] => none
  | p :: ps, c :: cs => if lowerC c = p then expectStrCI ps cs else none

/-- Greedy negated class up to a terminator: `[^x]*x`.  Returns the (possibly
empty) run before the first `stop` character and the text after it. -/
def takeUntil (stop : Char) : List Char → Option (List Char × List Char)
  | [] => none
  | c :: cs =>
    if c = stop then some ([], cs)
    else
      match takeUntil stop cs with
      | some (p, r) => some (c :: p, r)
      | none => none

/-- `\s+` followed by a literal that starts with a non-space character:
require one whitespace char, then greedily skip the rest of the run. -/
def checkSpace1 : List Char → Option (List Char)
  | [] => none
  | c :: r => if pyIsSpace c then some (skipWs r) else none

/-- `\s+` followed by `[^>]*`: require one whitespace char only (the rest of
the run is absorbed by the following negated class). -/
def checkSpaceRaw : List Char → Option (List Char)
  | [] => none
  | c :: r => if pyIsSpace c then some r else none

/-- The `+` requirement of a nonempty capture group. -/
def guardNonempty (l : List Char) : Option Unit :=
  if l.isEmpty then none else some ()

/-- The `\)?` consumption after an anchor match. -/
def dropParen : List Char → List Char
  | ')' :: t => t
  | t => t

/-- `startswith` test used for substring search and `--label-type` parsing. -/
def startsWithL (p cs : List Char) : Bool := (expectStr p cs).isSome

/-- Python's `pat in line` substring test. -/
def containsStr (p : List Char) : List Char → Bool
  | [] => startsWithL p []
  | c :: rest => startsWithL p (c :: rest) || containsStr p rest

/-- Python's `str.strip()` on the ASCII whitespace model. -/
def pyStrip (cs : List Char) : List Char :=
  ((cs.dropWhile pyIsSpace).reverse.dropWhile pyIsSpace).reverse

/-- `str.splitlines` worker: accumulates the current line reversed. -/
def splitGo (acc : List Char) : List Char → List (List Char)
  | [] => [acc.reverse]
  | '\r' :: '\n' :: rest => acc.reverse :: (if rest.isEmpty then [] else splitGo [] rest)
  | '\r' :: rest => acc.reverse :: (if rest.isEmpty then [] else splitGo [] rest)
  | '\n' :: rest => acc.reverse :: (if rest.isEmpty then [] else splitGo [] rest)
  | c :: rest => splitGo (c :: acc) rest

/-- `str.splitlines` (on `\r\n`, `\r`, `\n`; empty string gives no lines). -/
def splitlines (cs : List Char) : List (List Char) :=
  match cs with
  | [] => []
  | _ => splitGo [] cs

/-- `'\n'.join(...)` on lines. -/
def joinNL : List (List Char) → List Char
  | [] => []
  | [l] => l
  | l :: ls => l ++ '\n' :: joinNL ls

/-- Association-list lookup modelling `dict.get` / `in` on the equation map. -/
def lookupL : List (List Char × List Char) → List Char → Option (List Char)
  | [], _ => none
  | (k, v) :: rest, key => if k = key then some v else lookupL rest key

/-- Python's `'s' * n` for an `int` count (non-positive gives the empty string). -/
def repeatNL (s : List Char) : Nat → List Char
  | 0 => []
  | k + 1 => s ++ repeatNL s k

def repeatL (s : List Char) (n : Int) : List Char := repeatNL s n.toNat

/-! ## Generic `re.sub` scanner -/

/-- One `re.sub` pass: `m` is the compiled pattern-with-replacement; at each
position it either yields `(replacement, rest-after-match)` or fails.  Fuel is
instantiated with the input length by each top-level wrapper. -/
def subGo (m : List Char → Option (List Char × List Char)) : Nat → List Char → List Char
  | _, [] => []
  | 0, cs => cs
  | f + 1, c :: rest =>
    match m (c :: rest) with
    | some (repl, r2) => repl ++ subGo m f r2
    | none => c :: subGo m f rest

/-- Whether the pattern `m` matches anywhere in the text. -/
def hasMatchGo {α : Type} (m : List Char → Option α) : List Char → Bool
  | [] => false
  | c :: rest => (m (c :: rest)).isSome || hasMatchGo m rest

/-! ## `generate_equation_number_mapping` (lines 14-27) -/

/-- `re.match(r'^\s*<a\s+id="(eq:[^"]+)"></a>', line)`: anchored prefix match
returning the captured id `eq:...`. -/
def matchAnchorIdLine (line : List Char) : Option (List Char) :=
  match expectStr (strL "<a") (skipWs line) with
  | none => none
  | some r1 =>
    match r1 with
    | [] => none
    | c :: r2 =>
      if pyIsSpace c then
        match expectStr (strL "id=\"eq:") (skipWs r2) with
        | none => none
        | some r3 =>
          match takeUntil '\"' r3 with
          | none => none
          | some (x, r4) =>
            if x.isEmpty then none
            else
              match expectStr (strL "></a>") r4 with
              | some _ => some (strL "eq:" ++ x)
              | none => none
      else none

/-- The `for line in output.splitlines()` loop of
`generate_equation_number_mapping`, with the map and counter threaded. -/
def genMapGo : List (List Char) → List (List Char × List Char) → Nat → List (List Char × List Char)
  | [], m, _ => m
  | line :: rest, m, n =>
    match matchAnchorIdLine line with
    | some label =>
      if (lookupL m label).isSome then genMapGo rest m n
      else genMapGo rest (m ++ [(label, strL (Nat.repr n))]) (n + 1)
    | none => genMapGo rest m n

/-- `generate_equation_number_mapping(output)`: labels of matching anchor
lines mapped to `str(n)` for `n = 1, 2, ...` in first-occurrence order. -/
def generate_equation_number_mapping (output : String) : List (List Char × List Char) :=
  genMapGo (splitlines output.data) [] 1

/-- The per-line anchor ids of a text, in scanning order, duplicates kept. -/
def anchorIds (output : String) : List (List Char) :=
  (splitlines output.data).filterMap matchAnchorIdLine

/-- First-occurrence deduplication (specification-side description of the
map's key order): keep a key only if it is not already in `seen`. -/
def newKeys (seen : List (List Char)) : List (List Char) → List (List Char)
  | [] => []
  | k :: ks => if k ∈ seen then newKeys seen ks else k :: newKeys (k :: seen) ks

/-! ## `substitute_equation_numbers` (lines 29-78) -/

/-- Match of `\[eq:([^\]]+)\]\(#(eq:[^)]+)\)` at the current position.
Returns `((group1, group2), rest)`; `group2` includes the `eq:` prefix. -/
def trySub1Core (cs : List Char) : Option ((List Char × List Char) × List Char) :=
  (expectStr (strL "[eq:") cs).bind fun r1 =>
  (takeUntil ']' r1).bind fun xr2 =>
  (guardNonempty xr2.1).bind fun _ =>
  (expectStr (strL "(#eq:") xr2.2).bind fun r3 =>
  (takeUntil ')' r3).bind fun yr4 =>
  (guardNonempty yr4.1).bind fun _ =>
  some ((xr2.1, strL "eq:" ++ yr4.1), yr4.2)

/-- `replace_linked_labels`: the mapped number (Python truthiness: `None` and
the empty string both leave the match unchanged), else `group(0)`. -/
def sub1Out (map : List (List Char × List Char)) (x yFull : List Char) : List Char :=
  match lookupL map yFull with
  | some n =>
    if n.isEmpty then strL "[eq:" ++ x ++ strL "](#" ++ yFull ++ strL ")"
    else strL "[" ++ n ++ strL "](#" ++ yFull ++ strL ")"
  | none => strL "[eq:" ++ x ++ strL "](#" ++ yFull ++ strL ")"

def sub1Repl (map : List (List Char × List Char)) (cs : List Char) :
    Option (List Char × List Char) :=
  match trySub1Core cs with
  | some ((x, yFull), r) => some (sub1Out map x yFull, r)
  | none => none

/-- First substitution pass of `substitute_equation_numbers`. -/
def sub1L (map : List (List Char × List Char)) (cs : List Char) : List Char :=
  subGo (sub1Repl map) cs.length cs

/-- Match of `\[\[eq:([^\]]+)\]\]\(#(eq:[^)]+)\)` at the current position. -/
def trySub2Core (cs : List Char) : Option ((List Char × List Char) × List Char) :=
  (expectStr (strL "[[eq:") cs).bind fun r1 =>
  (takeUntil ']' r1).bind fun xr2 =>
  (guardNonempty xr2.1).bind fun _ =>
  (expectStr (strL "](#eq:") xr2.2).bind fun r3 =>
  (takeUntil ')' r3).bind fun yr4 =>
  (guardNonempty yr4.1).bind fun _ =>
  some ((xr2.1, strL "eq:" ++ yr4.1), yr4.2)

/-- `replace_double_bracket_links`. -/
def sub2Out (map : List (List Char × List Char)) (x yFull : List Char) : List Char :=
  match lookupL map yFull with
  | some n =>
    if n.isEmpty then strL "[[eq:" ++ x ++ strL "]](#" ++ yFull ++ strL ")"
    else strL "[[" ++ n ++ strL "]](#" ++ yFull ++ strL ")"
  | none => strL "[[eq:" ++ x ++ strL "]](#" ++ yFull ++ strL ")"

def sub2Repl (map : List (List Char × List Char)) (cs : List Char) :
    Option (List Char × List Char) :=
  match trySub2Core cs with
  | some ((x, yFull), r) => some (sub2Out map x yFull, r)
  | none => none

/-- Second substitution pass of `substitute_equation_numbers`. -/
def sub2L (map : List (List Char × List Char)) (cs : List Char) : List Char :=
  subGo (sub2Repl map) cs.length cs

/-- The run produced by `[A-Za-z0-9_.-]+` after backtracking for the trailing
`\b`: the maximal class run minus its trailing non-word characters (`.`/`-`).
The char after the maximal run is never a word character (ASCII word chars all
lie in the class), so the boundary holds exactly when the last kept char is a
word char; the regex engine gives back trailing class chars until that holds. -/
def dropTrailingNonWord (run : List Char) : List Char :=
  (run.reverse.dropWhile (fun c => !isWordC c)).reverse

def trailingNonWord (run : List Char) : List Char :=
  (run.reverse.takeWhile (fun c => !isWordC c)).reverse

/-- Match of `\beq:[A-Za-z0-9_.-]+\b` at the current position (the leading
boundary is checked by the caller, which tracks the previous character).
Returns `(group0, rest)`; given-back trailing chars are not consumed. -/
def trySub3Core (cs : List Char) : Option (List Char × List Char) :=
  match expectStr (strL "eq:") cs with
  | none => none
  | some r1 =>
    let run := r1.takeWhile isLabelC
    let rest := r1.dropWhile isLabelC
    let kept := dropTrailingNonWord run
    if kept.isEmpty then none
    else some (strL "eq:" ++ kept, trailingNonWord run ++ rest)

/-- `replace_inline_label` (Python truthiness as above). -/
def sub3Out (map : List (List Char × List Char)) (lbl : List Char) : List Char :=
  match lookupL map lbl with
  | some n => if n.isEmpty then lbl else n
  | none => lbl

/-- Scanner for the standalone pass: `prevW` records whether the character
just before the current position is a word character (for the leading `\b`).
After a match the last matched char is a word char, so `prevW` becomes true. -/
def sub3Go (map : List (List Char × List Char)) : Nat → Bool → List Char → List Char
  | _, _, [] => []
  | 0, _, cs => cs
  | f + 1, prevW, c :: rest =>
    if prevW then c :: sub3Go map f (isWordC c) rest
    else
      match trySub3Core (c :: rest) with
      | some (lbl, r2) => sub3Out map lbl ++ sub3Go map f true r2
      | none => c :: sub3Go map f (isWordC c) rest

/-- Third substitution pass of `substitute_equation_numbers`. -/
def sub3L (map : List (List Char × List Char)) (cs : List Char) : List Char :=
  sub3Go map cs.length false cs

/-- `substitute_equation_numbers(equation_map, output)`: the three passes in
the fixed order of lines 70-76. -/
def substitute_equation_numbers (map : List (List Char × List Char)) (output : String) :
    String :=
  String.mk (sub3L map (sub2L map (sub1L map output.data)))

/-! ## `simplify_pandoc_html_references` (lines 80-106) -/

/-- Body of the match of
`\(?<a\s+href="#([^"]+)"\s+[^>]*>\s*\[[^\]]+\]\s*</a>\)?` (IGNORECASE) after
the optional opening parenthesis.  Returns the captured href label and the
rest after the match (including after the optional closing parenthesis). -/
def tryAnchorBody (cs1 : List Char) : Option (List Char × List Char) :=
  (expectStrCI (strL "<a") cs1).bind fun r1 =>
  (checkSpace1 r1).bind fun r2 =>
  (expectStrCI (strL "href=\"#") r2).bind fun g1 =>
  (takeUntil '\"' g1).bind fun lblr4 =>
  (guardNonempty lblr4.1).bind fun _ =>
  (checkSpaceRaw lblr4.2).bind fun r5 =>
  (takeUntil '>' r5).bind fun attrsr6 =>
  (expectStr (strL "[") (skipWs attrsr6.2)).bind fun r7 =>
  (takeUntil ']' r7).bind fun visr8 =>
  (guardNonempty visr8.1).bind fun _ =>
  (expectStrCI (strL "</a>") (skipWs visr8.2)).bind fun r9 =>
  some (lblr4.1, dropParen r9)

/-- The whole anchor pattern: the optional leading `\(?` then the body (the
trailing `\)?` is consumed inside the body). -/
def tryAnchorCore (cs : List Char) : Option (List Char × List Char) :=
  match cs with
  | '(' :: r => tryAnchorBody r
  | _ => tryAnchorBody cs

/-- The `replacement` closure of `simplify_pandoc_html_references`. -/
def anchorOut (remove_parens keep_link_brackets : Bool) (lbl : List Char) : List Char :=
  let display :=
    if keep_link_brackets then strL "[[" ++ lbl ++ strL "]]"
    else strL "[" ++ lbl ++ strL "]"
  let link := display ++ strL "(#" ++ lbl ++ strL ")"
  if remove_parens then link else strL "(" ++ link ++ strL ")"

def tryAnchor (remove_parens keep_link_brackets : Bool) (cs : List Char) :
    Option (List Char × List Char) :=
  match tryAnchorCore cs with
  | some (lbl, rest) => some (anchorOut remove_parens keep_link_brackets lbl, rest)
  | none => none

def simplifyL (remove_parens keep_link_brackets : Bool) (cs : List Char) : List Char :=
  subGo (tryAnchor remove_parens keep_link_brackets) cs.length cs

/-- `simplify_pandoc_html_references(text, remove_parens, keep_link_brackets)`. -/
def simplify_pandoc_html_references (text : String)
    (remove_parens keep_link_brackets : Bool) : String :=
  String.mk (simplifyL remove_parens keep_link_brackets text.data)

/-! ## The `\ref`/`\eqref` rewrite (line 132) -/

/-- Match of `\\(?:eq)?ref\{([^}]+)\}` at the current position, already
paired with the replacement `[\1](#\1)`. -/
def tryRefCore (cs : List Char) : Option (List Char × List Char) :=
  match cs with
  | '\\' :: r =>
    let afterBrace : List Char → Option (List Char × List Char) := fun r1 =>
      match takeUntil '\x7d' r1 with
      | some (x, r2) =>
        if x.isEmpty then none
        else some (strL "[" ++ x ++ strL "](#" ++ x ++ strL ")", r2)
      | none => none
    match expectStr (strL "eqref\x7b") r with
    | some r1 => afterBrace r1
    | none =>
      match expectStr (strL "ref\x7b") r with
      | some r1 => afterBrace r1
      | none => none
  | _ => none

def refSubL (cs : List Char) : List Char := subGo tryRefCore cs.length cs

/-- The Reference Normalizer: the `\ref`/`\eqref` rewrite followed by
`simplify_pandoc_html_references` (lines 131-135). -/
def referenceNormalizer (remove_parens keep_link_brackets : Bool) (text : String) : String :=
  simplify_pandoc_html_references (String.mk (refSubL text.data))
    remove_parens keep_link_brackets

/-! ## `replace_block_math` and the display-math pass (lines 137-185) -/

/-- Match of `\\label\{([^}]+)\}` at the current position. -/
def tryLabel (cs : List Char) : Option (List Char × List Char) :=
  match expectStr (strL "\\label\x7b") cs with
  | some r1 =>
    match takeUntil '\x7d' r1 with
    | some (x, r2) => if x.isEmpty then none else some (x, r2)
    | none => none
  | none => none

/-- `re.search(r'\\label\{([^}]+)\}', content)`: first match's group. -/
def searchLabel : List Char → Option (List Char)
  | [] => none
  | c :: rest =>
    match tryLabel (c :: rest) with
    | some (x, _) => some x
    | none => searchLabel rest

def tryLabelRemove (cs : List Char) : Option (List Char × List Char) :=
  match tryLabel cs with
  | some (_, r) => some (([] : List Char), r)
  | none => none

/-- `re.sub(r'\\label\{[^}]+\}', '', content)`. -/
def removeLabels (cs : List Char) : List Char := subGo tryLabelRemove cs.length cs

def endMarker : List Char := strL "\\end\x7b"

/-- Lines 158-168: insert the injection line before the last line containing
`\end{` (searching from the end); append it if no such line exists. -/
def insertInject : List (List Char) → List Char → List (List Char)
  | [], inj => [inj]
  | l :: rest, inj =>
    if rest.any (fun ln => containsStr endMarker ln) then l :: insertInject rest inj
    else if containsStr endMarker l then inj :: l :: rest
    else l :: insertInject rest inj

/-- Index of the last line containing `\end{` (specification-side description
of the insertion point). -/
def lastEndIdx : List (List Char) → Option Nat
  | [] => none
  | l :: rest =>
    match lastEndIdx rest with
    | some k => some (k + 1)
    | none => if containsStr endMarker l then some 0 else none

/-- `replace_block_math(match)` on the captured group 1. -/
def replace_block_math (label_type : String) (quadd_count : Int) (group1 : List Char) :
    List Char :=
  let content0 := pyStrip group1
  let labelO := searchLabel content0
  let content1 := pyStrip (removeLabels content0)
  let injectO : Option (List Char) :=
    match labelO with
    | some label =>
      if label_type = "tag" then some (strL "\\tag\x7b" ++ label ++ strL "\x7d")
      else if label_type = "quadd" then
        some (repeatL (strL "\\qquad") quadd_count ++ strL "\\text\x7b(" ++ label ++ strL ")\x7d")
      else none
    | none => none
  let htmlO : Option (List Char) :=
    match labelO with
    | some label =>
      if label_type = "p" then
        some (strL "<p align=\"right\">(" ++ label ++ strL ")</p>" ++ strL "\n")
      else none
    | none => none
  let content2 :=
    match injectO with
    | some inj => if inj.isEmpty then content1 else joinNL (insertInject (splitlines content1) inj)
    | none => content1
  let anchorPart : List (List Char) :=
    match labelO with
    | some label => if label.isEmpty then [] else [strL "<a id=\"" ++ label ++ strL "\"></a>"]
    | none => []
  let htmlPart : List (List Char) :=
    match htmlO with
    | some hh => if hh.isEmpty then [] else [hh]
    | none => []
  joinNL ([([] : List Char)] ++ anchorPart ++ htmlPart ++
    [strL "```math", content2, strL "```", ([] : List Char)])

/-- First occurrence of `$$` (the closing delimiter for the lazy group). -/
def splitAtDD : List Char → Option (List Char × List Char)
  | '$' :: '$' :: r => some ([], r)
  | c :: r =>
    match splitAtDD r with
    | some (p, q) => some (c :: p, q)
    | none => none
  | [] => none

/-- Match of `\$\$\s*([\s\S]*?)\s*\$\$` at the current position: the greedy
`\s*` and the lazy group make group 1 the whitespace-trimmed text up to the
first following `$$`.  Paired with the `replace_block_math` replacement. -/
def tryDisplay (label_type : String) (quadd_count : Int) (cs : List Char) :
    Option (List Char × List Char) :=
  match cs with
  | '$' :: '$' :: r =>
    match splitAtDD r with
    | some (between, rest) =>
      some (replace_block_math label_type quadd_count (pyStrip between), rest)
    | none => none
  | _ => none

def displayL (label_type : String) (quadd_count : Int) (cs : List Char) : List Char :=
  subGo (tryDisplay label_type quadd_count) cs.length cs

/-! ## `replace_dollar_delimited_math` and the inline pass (lines 187-193) -/

/-- Match of `\$([\s\S\$]*?)\$` at the current position: non-greedy, so the
content runs to the first following `$`.  Paired with the replacement. -/
def tryDollar (cs : List Char) : Option (List Char × List Char) :=
  match cs with
  | '$' :: r =>
    match takeUntil '$' r with
    | some (content, rest) => some (strL "$`" ++ content ++ strL "`$", rest)
    | none => none
  | _ => none

def dollarL (cs : List Char) : List Char := subGo tryDollar cs.length cs

def replace_dollar_delimited_math (text : String) : String := String.mk (dollarL text.data)

/-! ## `process_latex_labeled_math` (lines 108-195) -/

def process_latex_labeled_math (md_input : String) (remove_parens keep_link_brackets : Bool)
    (label_type : String) (quadd_count : Int) : String :=
  let t1 := refSubL md_input.data
  let t2 := simplifyL remove_parens keep_link_brackets t1
  let t3 := displayL label_type quadd_count t2
  String.mk (dollarL t3)

/-! ## `main` (lines 229-276): `--label-type` validation and the pipeline -/

/-- Digits of Python `int(str)`: `digit (digit | '_' digit)*` (single
underscores only between digits). -/
def digitsGo (acc : Nat) : List Char → Option Nat
  | [] => some acc
  | '_' :: c :: rest =>
    if c.isDigit then digitsGo (acc * 10 + (c.toNat - 48)) rest else none
  | '_' :: [] => none
  | c :: rest =>
    if c.isDigit then digitsGo (acc * 10 + (c.toNat - 48)) rest else none

def digitsVal : List Char → Option Nat
  | [] => none
  | c :: rest => if c.isDigit then digitsGo (c.toNat - 48) rest else none

/-- Python `int(s)` for a decimal string: surrounding whitespace, an optional
sign, then digits (ASCII model). `none` models `ValueError`. -/
def pythonInt (s : List Char) : Option Int :=
  match pyStrip s with
  | '+' :: r => (digitsVal r).map (fun n => (n : Int))
  | '-' :: r => (digitsVal r).map (fun n => -(n : Int))
  | r => (digitsVal r).map (fun n => (n : Int))

/-- Lines 243-262: parse and validate `--label-type`, yielding
`(label_type, quadd_count)` or the diagnostic printed to stderr. -/
def validateLabelType (s : String) : Except String (String × Int) :=
  if startsWithL (strL "quadd:") s.data then
    match pythonInt (s.data.drop 6) with
    | some n =>
      if n ≤ 0 then Except.error "Error: --label-type quadd:<n> requires a positive integer n."
      else Except.ok ("quadd", n)
    | none => Except.error "Error: --label-type quadd:<n> requires a positive integer n."
  else if s = "p" then Except.ok ("p", 0)
  else if s = "tag" then Except.ok ("tag", 0)
  else Except.error ("Error: Unsupported --label-type '" ++ s ++ "'.")

/-- Boolean well-formedness of the `--label-type` argument (the recognized
forms: `tag`, `p`, `quadd:<n>` with a positive parseable `n`). -/
def isWellFormedLabelType (s : String) : Bool :=
  s == "tag" || s == "p" ||
    (startsWithL (strL "quadd:") s.data &&
      (match pythonInt (s.data.drop 6) with
       | some n => decide (0 < n)
       | none => false))

/-- Observable outcome of one invocation: what is written to stdout and
stderr, and the exit status. -/
structure ExecResult where
  stdout : String
  stderr : String
  exitCode : Nat
  deriving DecidableEq, Repr

/-- `main()` with the input already read (stdin mode): validate
`--label-type` (exiting with status 1 after a stderr diagnostic and before
any output on failure), else run the pipeline and write the result. -/
def runMain (remove_parens keep_link_brackets : Bool) (labelTypeArg : String)
    (mdInput : String) : ExecResult :=
  match validateLabelType labelTypeArg with
  | Except.error msg => ⟨"", msg ++ "\n", 1⟩
  | Except.ok (lt, qc) =>
    let output := process_latex_labeled_math mdInput remove_parens keep_link_brackets lt qc
    let m := generate_equation_number_mapping output
    ⟨substitute_equation_numbers m output, "", 0⟩

/-! ## Auxiliary specification-side constructs used in claim statements -/

/-- A Pandoc HTML anchor reference, built from its parts (no surrounding
parentheses): `<a href="#H" ATTRS>[VIS]</a>`. -/
def anchorConstruct (href attrs vis : List Char) : List Char :=
  strL "<a" ++ strL " " ++ strL "href=\"#" ++ href ++ strL "\"" ++ strL " " ++ attrs ++
    strL ">" ++ strL "[" ++ vis ++ strL "]" ++ strL "</a>"

/-- A single-bracket equation reference `[eq:X](#eq:Y)`, built from its parts. -/
def refConstruct1 (x y : List Char) : List Char :=
  strL "[eq:" ++ x ++ strL "](#eq:" ++ y ++ strL ")"

/-- A double-bracket equation reference `[[eq:X]](#eq:Y)`. -/
def refConstruct2 (x y : List Char) : List Char :=
  strL "[[eq:" ++ x ++ strL "]](#eq:" ++ y ++ strL ")"

/-- A character at which no match of the anchor-reference pattern can start
(the pattern must begin with `(` or, case-insensitively, `<`). -/
def cannotStartAnchor (c : Char) : Bool := !(c == '(') && !(lowerC c == '<')

/-! # Basic lemmas about the combinators -/

theorem mk_data (s : String) : String.mk s.data = s := rfl

theorem skipWs_le : ∀ cs : List Char, (skipWs cs).length ≤ cs.length := by
  intro cs
  induction cs with
  | nil => simp [skipWs]
  | cons c rest ih =>
    simp only [skipWs]
    split
    · exact Nat.le_succ_of_le ih
    · simp

theorem skipWs_cons {c : Char} (cs : List Char) (h : pyIsSpace c = false) :
    skipWs (c :: cs) = c :: cs := by
  simp [skipWs, h]

theorem expectStr_length :
    ∀ (ps cs r : List Char), expectStr ps cs = some r → cs.length = ps.length + r.length := by
  intro ps
  induction ps with
  | nil =>
    intro cs r h
    simp only [expectStr, Option.some.injEq] at h
    subst h; simp
  | cons p ps ih =>
    intro cs r h
    cases cs with
    | nil => simp [expectStr] at h
    | cons c cs' =>
      simp only [expectStr] at h
      split at h
      · have := ih cs' r h
        simp only [List.length_cons]
        omega
      · cases h

theorem expectStr_self : ∀ (ps t : List Char), expectStr ps (ps ++ t) = some t := by
  intro ps t
  induction ps with
  | nil => rfl
  | cons p ps ih => simp [expectStr, ih]

theorem expectStrCI_length :
    ∀ (ps cs r : List Char), expectStrCI ps cs = some r → cs.length = ps.length + r.length := by
  intro ps
  induction ps with
  | nil =>
    intro cs r h
    simp only [expectStrCI, Option.some.injEq] at h
    subst h; simp
  | cons p ps ih =>
    intro cs r h
    cases cs with
    | nil => simp [expectStrCI] at h
    | cons c cs' =>
      simp only [expectStrCI] at h
      split at h
      · have := ih cs' r h
        simp only [List.length_cons]
        omega
      · cases h

theorem expectStrCI_self :
    ∀ (ps : List Char), (∀ c ∈ ps, lowerC c = c) → ∀ t, expectStrCI ps (ps ++ t) = some t := by
  intro ps
  induction ps with
  | nil => intro _ t; rfl
  | cons p ps ih =>
    intro hp t
    simp only [List.cons_append, expectStrCI]
    rw [hp p (by simp), if_pos rfl]
    exact ih (fun c hc => hp c (by simp [hc])) t

theorem takeUntil_length :
    ∀ (stop : Char) (cs p r : List Char),
      takeUntil stop cs = some (p, r) → cs.length = p.length + 1 + r.length := by
  intro stop cs
  induction cs with
  | nil => intro p r h; simp [takeUntil] at h
  | cons c cs' ih =>
    intro p r h
    simp only [takeUntil] at h
    split at h
    · simp only [Option.some.injEq, Prod.mk.injEq] at h
      obtain ⟨h1, h2⟩ := h
      subst h1; subst h2
      simp only [List.length_cons, List.length_nil]
      omega
    · cases h2 : takeUntil stop cs' with
      | none => rw [h2] at h; cases h
      | some pr =>
        rw [h2] at h
        cases pr with
        | mk p' r' =>
          simp only [Option.some.injEq, Prod.mk.injEq] at h
          obtain ⟨h1, h3⟩ := h
          subst h1; subst h3
          have := ih p' _ h2
          simp only [List.length_cons]
          omega

theorem takeUntil_append :
    ∀ (stop : Char) (p r : List Char), stop ∉ p →
      takeUntil stop (p ++ stop :: r) = some (p, r) := by
  intro stop p
  induction p with
  | nil => intro r _; simp [takeUntil]
  | cons c p' ih =>
    intro r h
    have hc : ¬(c = stop) := fun e => h (by simp [e])
    simp only [List.cons_append, takeUntil, List.append_eq, if_neg hc,
      ih r (fun hm => h (by simp [hm]))]

theorem lookupL_isSome :
    ∀ (m : List (List Char × List Char)) (k : List Char),
      (lookupL m k).isSome = true ↔ k ∈ m.map Prod.fst := by
  intro m k
  induction m with
  | nil => simp [lookupL]
  | cons kv rest ih =>
    cases kv with
    | mk a b =>
      simp only [lookupL, List.map_cons, List.mem_cons]
      split
      · next he => simp [he.symm]
      · next he =>
        rw [ih]
        constructor
        · intro h; exact Or.inr h
        · intro h
          cases h with
          | inl h => exact absurd h.symm he
          | inr h => exact h

/-! # Generic lemmas about the `re.sub` scanner -/

theorem subGo_nil (m : List Char → Option (List Char × List Char)) (f : Nat) :
    subGo m f [] = [] := by
  cases f <;> rfl

theorem subGo_step_none {m : List Char → Option (List Char × List Char)} {c : Char}
    {rest : List Char} (f : Nat) (h : m (c :: rest) = none) :
    subGo m (f + 1) (c :: rest) = c :: subGo m f rest := by
  simp [subGo, h]

theorem subGo_step_some {m : List Char → Option (List Char × List Char)} {c : Char}
    {rest a r : List Char} (f : Nat) (h : m (c :: rest) = some (a, r)) :
    subGo m (f + 1) (c :: rest) = a ++ subGo m f r := by
  simp [subGo, h]

theorem subGo_irrel (m : List Char → Option (List Char × List Char))
    (hm : ∀ cs a r, m cs = some (a, r) → r.length < cs.length) :
    ∀ (f g : Nat) (cs : List Char), cs.length ≤ f → cs.length ≤ g →
      subGo m f cs = subGo m g cs := by
  intro f
  induction f with
  | zero =>
    intro g cs hf _
    have hcs : cs = [] := by
      cases cs with
      | nil => rfl
      | cons c rest => simp at hf
    subst hcs
    rw [subGo_nil, subGo_nil]
  | succ f ih =>
    intro g cs hf hg
    cases cs with
    | nil => rw [subGo_nil, subGo_nil]
    | cons c rest =>
      cases g with
      | zero => simp at hg
      | succ g =>
        cases h : m (c :: rest) with
        | none =>
          rw [subGo_step_none f h, subGo_step_none g h]
          have hf' : rest.length ≤ f := by simp at hf; omega
          have hg' : rest.length ≤ g := by simp at hg; omega
          rw [ih g rest hf' hg']
        | some ar =>
          cases ar with
          | mk a r =>
            rw [subGo_step_some f h, subGo_step_some g h]
            have hr := hm _ _ _ h
            have hf' : r.length ≤ f := by simp at hr hf; omega
            have hg' : r.length ≤ g := by simp at hr hg; omega
            rw [ih g r hf' hg']

theorem subGo_id (m : List Char → Option (List Char × List Char)) :
    ∀ (f : Nat) (cs : List Char), hasMatchGo m cs = false → subGo m f cs = cs := by
  intro f
  induction f with
  | zero => intro cs _; cases cs <;> rfl
  | succ f ih =>
    intro cs h
    cases cs with
    | nil => rfl
    | cons c rest =>
      simp only [hasMatchGo, Bool.or_eq_false_iff] at h
      have h1 : m (c :: rest) = none := by
        cases hm : m (c :: rest) with
        | none => rfl
        | some a => rw [hm] at h; simp at h
      rw [subGo_step_none f h1, ih rest h.2]

theorem subGo_through (m : List Char → Option (List Char × List Char))
    (hm : ∀ cs a r, m cs = some (a, r) → r.length < cs.length) :
    ∀ (pre rest : List Char), (∀ c ∈ pre, ∀ t, m (c :: t) = none) →
      ∀ f, (pre ++ rest).length ≤ f →
        subGo m f (pre ++ rest) = pre ++ subGo m rest.length rest := by
  intro pre
  induction pre with
  | nil =>
    intro rest _ f hf
    simp only [List.nil_append] at hf ⊢
    exact subGo_irrel m hm f rest.length rest hf le_rfl
  | cons c pre' ih =>
    intro rest hc f hf
    cases f with
    | zero => simp at hf
    | succ f =>
      have h1 : m (c :: (pre' ++ rest)) = none := hc c (by simp) _
      rw [List.cons_append, subGo_step_none f h1,
        ih rest (fun d hd t => hc d (by simp [hd]) t) f (by simp at hf ⊢; omega)]
      rfl

/-! # Length lemmas for the pattern matchers -/

theorem trySub1Core_length :
    ∀ (cs : List Char) (g : List Char × List Char) (r : List Char),
      trySub1Core cs = some (g, r) → r.length < cs.length := by
  intro cs g r h
  simp only [trySub1Core, Option.bind_eq_some] at h
  obtain ⟨r1, h1, ⟨x, r2⟩, h2, u1, -, r3, h3, ⟨y, r4⟩, h4, u2, -, hfin⟩ := h
  dsimp only at h3 h4 hfin
  simp only [Option.some.injEq, Prod.mk.injEq] at hfin
  obtain ⟨-, hr⟩ := hfin
  subst hr
  have e1 := expectStr_length _ _ _ h1
  have e2 := takeUntil_length _ _ _ _ h2
  have e3 := expectStr_length _ _ _ h3
  have e4 := takeUntil_length _ _ _ _ h4
  have l1 : (strL "[eq:").length = 4 := rfl
  have l3 : (strL "(#eq:").length = 5 := rfl
  omega

theorem trySub2Core_length :
    ∀ (cs : List Char) (g : List Char × List Char) (r : List Char),
      trySub2Core cs = some (g, r) → r.length < cs.length := by
  intro cs g r h
  simp only [trySub2Core, Option.bind_eq_some] at h
  obtain ⟨r1, h1, ⟨x, r2⟩, h2, u1, -, r3, h3, ⟨y, r4⟩, h4, u2, -, hfin⟩ := h
  dsimp only at h3 h4 hfin
  simp only [Option.some.injEq, Prod.mk.injEq] at hfin
  obtain ⟨-, hr⟩ := hfin
  subst hr
  have e1 := expectStr_length _ _ _ h1
  have e2 := takeUntil_length _ _ _ _ h2
  have e3 := expectStr_length _ _ _ h3
  have e4 := takeUntil_length _ _ _ _ h4
  have l1 : (strL "[[eq:").length = 5 := rfl
  have l3 : (strL "](#eq:").length = 6 := rfl
  omega

theorem tryDollar_length :
    ∀ (cs : List Char) (a r : List Char), tryDollar cs = some (a, r) → r.length < cs.length := by
  intro cs a r h
  unfold tryDollar at h
  split at h <;> try simp at h
  rename_i rest
  split at h <;> try simp at h
  rename_i content r2 h2
  obtain ⟨-, h3⟩ := h
  subst h3
  have := takeUntil_length _ _ _ _ h2
  simp only [List.length_cons]
  omega

theorem checkSpace1_length :
    ∀ (cs r : List Char), checkSpace1 cs = some r → r.length < cs.length := by
  intro cs r h
  cases cs with
  | nil => simp [checkSpace1] at h
  | cons c rest =>
    simp only [checkSpace1] at h
    split at h
    · simp only [Option.some.injEq] at h
      subst h
      have := skipWs_le rest
      simp only [List.length_cons]
      omega
    · cases h

theorem checkSpaceRaw_length :
    ∀ (cs r : List Char), checkSpaceRaw cs = some r → r.length < cs.length := by
  intro cs r h
  cases cs with
  | nil => simp [checkSpaceRaw] at h
  | cons c rest =>
    simp only [checkSpaceRaw] at h
    split at h
    · simp only [Option.some.injEq] at h
      subst h; simp
    · cases h

theorem dropParen_le : ∀ cs : List Char, (dropParen cs).length ≤ cs.length := by
  intro cs
  unfold dropParen
  split
  · simp
  · exact le_rfl

theorem tryAnchorBody_length :
    ∀ (cs a r : List Char), tryAnchorBody cs = some (a, r) → r.length < cs.length := by
  intro cs a r h
  simp only [tryAnchorBody, Option.bind_eq_some] at h
  obtain ⟨r1, h1, r2, h2, g1, h3, ⟨lbl, r4⟩, h4, u1, hg1, r5, h5, ⟨attrs, r6⟩, h6, r7, h7,
    ⟨vis, r8⟩, h8, u2, hg2, r9, h9, hfin⟩ := h
  dsimp only at h5 h7 h9 hfin
  simp only [Option.some.injEq, Prod.mk.injEq] at hfin
  obtain ⟨-, hr⟩ := hfin
  subst hr
  have e1 := expectStrCI_length _ _ _ h1
  have e2 := checkSpace1_length _ _ h2
  have e3 := expectStrCI_length _ _ _ h3
  have e4 := takeUntil_length _ _ _ _ h4
  have e5 := checkSpaceRaw_length _ _ h5
  have e6 := takeUntil_length _ _ _ _ h6
  have e7 := expectStr_length _ _ _ h7
  have e8 := takeUntil_length _ _ _ _ h8
  have e9 := expectStrCI_length _ _ _ h9
  have s6 := skipWs_le r6
  have s8 := skipWs_le r8
  have dp := dropParen_le r9
  omega

theorem tryAnchorCore_length :
    ∀ (cs : List Char) (a r : List Char), tryAnchorCore cs = some (a, r) → r.length < cs.length := by
  intro cs a r h
  unfold tryAnchorCore at h
  split at h
  · rename_i rr
    have := tryAnchorBody_length _ _ _ h
    simp only [List.length_cons]
    omega
  · exact tryAnchorBody_length _ _ _ h

theorem takeWhile_dropWhile_length (p : Char → Bool) (l : List Char) :
    (l.takeWhile p).length + (l.dropWhile p).length = l.length := by
  have h := congrArg List.length (List.takeWhile_append_dropWhile (p := p) (l := l))
  rw [List.length_append] at h
  exact h

theorem keptTrailing_length (run : List Char) :
    (dropTrailingNonWord run).length + (trailingNonWord run).length = run.length := by
  unfold dropTrailingNonWord trailingNonWord
  simp only [List.length_reverse]
  have := takeWhile_dropWhile_length (fun c => !isWordC c) run.reverse
  simp only [List.length_reverse] at this
  omega

theorem trySub3Core_length :
    ∀ (cs lbl r : List Char), trySub3Core cs = some (lbl, r) → r.length < cs.length := by
  intro cs lbl r h
  simp only [trySub3Core] at h
  split at h <;> try simp at h
  rename_i r1 h1
  obtain ⟨hne, -, hr⟩ := h
  subst hr
  have e1 := expectStr_length _ _ _ h1
  have l1 : (strL "eq:").length = 3 := rfl
  have k1 := keptTrailing_length (r1.takeWhile isLabelC)
  have k2 := takeWhile_dropWhile_length isLabelC r1
  have kne : (dropTrailingNonWord (r1.takeWhile isLabelC)).length ≠ 0 := by
    intro e
    rw [List.length_eq_zero] at e
    rw [e] at hne
    simp at hne
  simp only [List.length_append]
  omega

theorem sub1Repl_length (map : List (List Char × List Char)) :
    ∀ (cs a r : List Char), sub1Repl map cs = some (a, r) → r.length < cs.length := by
  intro cs a r h
  unfold sub1Repl at h
  split at h
  · rename_i g rr hg
    simp only [Option.some.injEq, Prod.mk.injEq] at h
    obtain ⟨-, hr⟩ := h
    subst hr
    exact trySub1Core_length _ _ _ hg
  · cases h

theorem sub2Repl_length (map : List (List Char × List Char)) :
    ∀ (cs a r : List Char), sub2Repl map cs = some (a, r) → r.length < cs.length := by
  intro cs a r h
  unfold sub2Repl at h
  split at h
  · rename_i g rr hg
    simp only [Option.some.injEq, Prod.mk.injEq] at h
    obtain ⟨-, hr⟩ := h
    subst hr
    exact trySub2Core_length _ _ _ hg
  · cases h

theorem tryAnchor_length (rp klb : Bool) :
    ∀ (cs a r : List Char), tryAnchor rp klb cs = some (a, r) → r.length < cs.length := by
  intro cs a r h
  unfold tryAnchor at h
  split at h
  · rename_i lbl rr hg
    simp only [Option.some.injEq, Prod.mk.injEq] at h
    obtain ⟨-, hr⟩ := h
    subst hr
    exact tryAnchorCore_length _ _ _ hg
  · cases h

/-! # No-match lemmas at characters that cannot start a pattern -/

theorem tryDollar_nostart (c : Char) (t : List Char) (h : ¬(c = '$')) :
    tryDollar (c :: t) = none := by
  unfold tryDollar
  split
  · rename_i r heq
    injection heq with hc _
    exact absurd hc h
  · rfl

theorem expectStrCI_angle_none (c : Char) (t : List Char) (h : ¬(lowerC c = '<')) :
    expectStrCI (strL "<a") (c :: t) = none := by
  have e : strL "<a" = '<' :: 'a' :: [] := rfl
  rw [e]
  simp [expectStrCI, h]

theorem tryAnchorBody_nostart (c : Char) (t : List Char) (h : ¬(lowerC c = '<')) :
    tryAnchorBody (c :: t) = none := by
  unfold tryAnchorBody
  rw [expectStrCI_angle_none c t h]
  rfl

theorem tryAnchorCore_nostart (c : Char) (t : List Char) (h : cannotStartAnchor c = true) :
    tryAnchorCore (c :: t) = none := by
  have h1 : ¬(c = '(') ∧ ¬(lowerC c = '<') := by
    simp [cannotStartAnchor] at h
    exact h
  unfold tryAnchorCore
  split
  · rename_i r heq
    injection heq with hc _
    exact absurd hc h1.1
  · exact tryAnchorBody_nostart c t h1.2

theorem tryAnchor_nostart (rp klb : Bool) (c : Char) (t : List Char)
    (h : cannotStartAnchor c = true) : tryAnchor rp klb (c :: t) = none := by
  unfold tryAnchor
  rw [tryAnchorCore_nostart c t h]

/-! # Computation of the matchers on well-formed constructs -/

theorem guardNonempty_pos (l : List Char) (h : l ≠ []) : guardNonempty l = some () := by
  cases l with
  | nil => exact absurd rfl h
  | cons c t => rfl

theorem trySub1Core_construct (x y rest : List Char) (hxne : x ≠ []) (hx : ']' ∉ x)
    (hyne : y ≠ []) (hy : ')' ∉ y) :
    trySub1Core (refConstruct1 x y ++ rest) = some ((x, strL "eq:" ++ y), rest) := by
  have e0 : refConstruct1 x y ++ rest
      = strL "[eq:" ++ (x ++ ']' :: (strL "(#eq:" ++ (y ++ ')' :: rest))) := by
    have c1 : strL "](#eq:" = ']' :: strL "(#eq:" := rfl
    have c2 : strL ")" = [')'] := rfl
    simp only [refConstruct1, c1, c2, List.append_assoc, List.cons_append, List.nil_append]
  rw [trySub1Core.eq_def, e0, expectStr_self]
  simp only [Option.some_bind]
  rw [takeUntil_append ']' x _ hx]
  simp only [Option.some_bind]
  rw [guardNonempty_pos x hxne]
  simp only [Option.some_bind]
  rw [expectStr_self]
  simp only [Option.some_bind]
  rw [takeUntil_append ')' y _ hy]
  simp only [Option.some_bind]
  rw [guardNonempty_pos y hyne]
  simp only [Option.some_bind]

theorem trySub2Core_construct (x y rest : List Char) (hxne : x ≠ []) (hx : ']' ∉ x)
    (hyne : y ≠ []) (hy : ')' ∉ y) :
    trySub2Core (refConstruct2 x y ++ rest) = some ((x, strL "eq:" ++ y), rest) := by
  have e0 : refConstruct2 x y ++ rest
      = strL "[[eq:" ++ (x ++ ']' :: (strL "](#eq:" ++ (y ++ ')' :: rest))) := by
    have c1 : strL "]](#eq:" = ']' :: strL "](#eq:" := rfl
    have c2 : strL ")" = [')'] := rfl
    simp only [refConstruct2, c1, c2, List.append_assoc, List.cons_append, List.nil_append]
  rw [trySub2Core.eq_def, e0, expectStr_self]
  simp only [Option.some_bind]
  rw [takeUntil_append ']' x _ hx]
  simp only [Option.some_bind]
  rw [guardNonempty_pos x hxne]
  simp only [Option.some_bind]
  rw [expectStr_self]
  simp only [Option.some_bind]
  rw [takeUntil_append ')' y _ hy]
  simp only [Option.some_bind]
  rw [guardNonempty_pos y hyne]
  simp only [Option.some_bind]

theorem checkSpace1_space (X : List Char) : checkSpace1 (' ' :: X) = some (skipWs X) := rfl

theorem checkSpaceRaw_space (X : List Char) : checkSpaceRaw (' ' :: X) = some X := rfl

theorem tryAnchorBody_construct (href attrs vis post : List Char)
    (hhne : href ≠ []) (hh : '\"' ∉ href) (ha : '>' ∉ attrs)
    (hvne : vis ≠ []) (hv : ']' ∉ vis) :
    tryAnchorBody (anchorConstruct href attrs vis ++ post) = some (href, dropParen post) := by
  have s1 : strL " " = [' '] := rfl
  have s2 : strL "\"" = ['\"'] := rfl
  have s3 : strL ">" = ['>'] := rfl
  have s4 : strL "[" = ['['] := rfl
  have s5 : strL "]" = [']'] := rfl
  have e0 : anchorConstruct href attrs vis ++ post
      = strL "<a" ++ (' ' :: (strL "href=\"#" ++ (href ++ '\"' :: (' ' :: (attrs ++ '>' ::
        ('[' :: (vis ++ ']' :: (strL "</a>" ++ post)))))))) := by
    simp only [anchorConstruct, s1, s2, s3, s4, s5, List.append_assoc, List.cons_append,
      List.singleton_append, List.nil_append]
  rw [tryAnchorBody, e0]
  rw [expectStrCI_self (strL "<a") (by decide)]
  simp only [Option.some_bind]
  rw [checkSpace1_space]
  simp only [Option.some_bind]
  have k1 : skipWs (strL "href=\"#" ++ (href ++ '\"' :: (' ' :: (attrs ++ '>' ::
      ('[' :: (vis ++ ']' :: (strL "</a>" ++ post))))))) =
      strL "href=\"#" ++ (href ++ '\"' :: (' ' :: (attrs ++ '>' ::
      ('[' :: (vis ++ ']' :: (strL "</a>" ++ post)))))) :=
    skipWs_cons _ (by decide)
  rw [k1, expectStrCI_self (strL "href=\"#") (by decide)]
  simp only [Option.some_bind]
  rw [takeUntil_append '\"' href _ hh]
  simp only [Option.some_bind]
  rw [guardNonempty_pos href hhne]
  simp only [Option.some_bind]
  rw [checkSpaceRaw_space]
  simp only [Option.some_bind]
  rw [takeUntil_append '>' attrs _ ha]
  simp only [Option.some_bind]
  have k2 : skipWs ('[' :: (vis ++ ']' :: (strL "</a>" ++ post))) =
      '[' :: (vis ++ ']' :: (strL "</a>" ++ post)) :=
    skipWs_cons _ (by decide)
  rw [k2]
  have k3 : expectStr (strL "[") ('[' :: (vis ++ ']' :: (strL "</a>" ++ post))) =
      some (vis ++ ']' :: (strL "</a>" ++ post)) :=
    expectStr_self (strL "[") _
  rw [k3]
  simp only [Option.some_bind]
  rw [takeUntil_append ']' vis _ hv]
  simp only [Option.some_bind]
  rw [guardNonempty_pos vis hvne]
  simp only [Option.some_bind]
  have k4 : skipWs (strL "</a>" ++ post) = strL "</a>" ++ post := skipWs_cons _ (by decide)
  rw [k4, expectStrCI_self (strL "</a>") (by decide)]
  simp only [Option.some_bind]

theorem tryAnchorCore_eq_body (cs : List Char) (h : ∀ t, cs ≠ '(' :: t) :
    tryAnchorCore cs = tryAnchorBody cs := by
  unfold tryAnchorCore
  split
  · rename_i r
    exact absurd rfl (h r)
  · rfl

theorem tryAnchorCore_paren (t : List Char) : tryAnchorCore ('(' :: t) = tryAnchorBody t := by
  unfold tryAnchorCore
  split
  · rename_i r heq
    injection heq with _ h2
    rw [h2]
  · rename_i hne
    exact absurd rfl (hne t)

theorem anchorConstruct_head (href attrs vis post : List Char) :
    anchorConstruct href attrs vis ++ post
      = '<' :: ('a' :: (strL " " ++ (strL "href=\"#" ++ href ++ strL "\"" ++ strL " " ++ attrs ++
          strL ">" ++ strL "[" ++ vis ++ strL "]" ++ strL "</a>" ++ post))) := by
  simp only [anchorConstruct, List.append_assoc, List.cons_append, List.nil_append]
  rfl

theorem tryAnchorCore_construct (href attrs vis post : List Char)
    (hhne : href ≠ []) (hh : '\"' ∉ href) (ha : '>' ∉ attrs)
    (hvne : vis ≠ []) (hv : ']' ∉ vis) :
    tryAnchorCore (anchorConstruct href attrs vis ++ post) = some (href, dropParen post) := by
  rw [tryAnchorCore_eq_body]
  · exact tryAnchorBody_construct href attrs vis post hhne hh ha hvne hv
  · intro t he
    rw [anchorConstruct_head] at he
    injection he with h1 _
    exact absurd h1 (by decide)

theorem tryAnchorCore_construct_paren (href attrs vis post : List Char)
    (hhne : href ≠ []) (hh : '\"' ∉ href) (ha : '>' ∉ attrs)
    (hvne : vis ≠ []) (hv : ']' ∉ vis) :
    tryAnchorCore ('(' :: (anchorConstruct href attrs vis ++ (')' :: post)))
      = some (href, post) := by
  rw [tryAnchorCore_paren]
  rw [tryAnchorBody_construct href attrs vis (')' :: post) hhne hh ha hvne hv]
  rfl

theorem tryDollar_front (b rest : List Char) (hb : '$' ∉ b) :
    tryDollar ('$' :: (b ++ '$' :: rest)) = some (strL "$`" ++ b ++ strL "`$", rest) := by
  simp only [tryDollar]
  rw [takeUntil_append '$' b rest hb]

theorem takeWhile_append_both (p : Char → Bool) :
    ∀ (l1 l2 : List Char), (∀ c ∈ l1, p c = true) → p (l2.headD ' ') = false →
      (l1 ++ l2).takeWhile p = l1 ∧ (l1 ++ l2).dropWhile p = l2 := by
  intro l1
  induction l1 with
  | nil =>
    intro l2 _ h2
    cases l2 with
    | nil => simp
    | cons c t =>
      simp only [List.headD_cons] at h2
      simp [List.takeWhile_cons, List.dropWhile_cons, h2]
  | cons a l1 ih =>
    intro l2 h1 h2
    have ha : p a = true := h1 a (by simp)
    have hrec := ih l2 (fun c hc => h1 c (by simp [hc])) h2
    simp [List.takeWhile_cons, List.dropWhile_cons, ha, hrec.1, hrec.2]

theorem dropTrailing_id (ident : List Char) (hne : ident ≠ [])
    (hlast : isWordC (ident.reverse.headD 'A') = true) :
    dropTrailingNonWord ident = ident ∧ trailingNonWord ident = [] := by
  cases hrev : ident.reverse with
  | nil =>
    have : ident = [] := by
      have h2 := congrArg List.reverse hrev
      simpa using h2
    exact absurd this hne
  | cons c t =>
    have hc : isWordC c = true := by
      rw [hrev] at hlast
      simpa using hlast
    have hident : (c :: t).reverse = ident := by
      have h2 := congrArg List.reverse hrev
      simpa using h2.symm
    constructor
    · unfold dropTrailingNonWord
      rw [hrev, List.dropWhile_cons]
      simp [hc, hident]
    · unfold trailingNonWord
      rw [hrev, List.takeWhile_cons]
      simp [hc]

theorem trySub3Core_front (ident rest : List Char) (hne : ident ≠ [])
    (hall : ∀ c ∈ ident, isLabelC c = true)
    (hlast : isWordC (ident.reverse.headD 'A') = true)
    (hrest : isLabelC (rest.headD ' ') = false) :
    trySub3Core (strL "eq:" ++ (ident ++ rest)) = some (strL "eq:" ++ ident, rest) := by
  have htw := takeWhile_append_both isLabelC ident rest hall hrest
  have hdt := dropTrailing_id ident hne hlast
  simp only [trySub3Core]
  rw [expectStr_self]
  simp only [htw.1, htw.2, hdt.1, hdt.2, List.nil_append]
  cases ident with
  | nil => exact absurd rfl hne
  | cons c t => simp

/-! # Lemmas about the standalone-pass scanner `sub3Go` -/

theorem sub3Go_nil (map : List (List Char × List Char)) (f : Nat) (b : Bool) :
    sub3Go map f b [] = [] := by
  cases f <;> rfl

theorem sub3Go_step_prev (map : List (List Char × List Char)) (f : Nat) (c : Char)
    (rest : List Char) : sub3Go map (f + 1) true (c :: rest) = c :: sub3Go map f (isWordC c) rest := by
  simp [sub3Go]

theorem sub3Go_step_none (map : List (List Char × List Char)) (f : Nat) (c : Char)
    (rest : List Char) (h : trySub3Core (c :: rest) = none) :
    sub3Go map (f + 1) false (c :: rest) = c :: sub3Go map f (isWordC c) rest := by
  simp [sub3Go, h]

theorem sub3Go_step_some (map : List (List Char × List Char)) (f : Nat) (c : Char)
    (rest lbl r2 : List Char) (h : trySub3Core (c :: rest) = some (lbl, r2)) :
    sub3Go map (f + 1) false (c :: rest) = sub3Out map lbl ++ sub3Go map f true r2 := by
  simp [sub3Go, h]

theorem sub3Go_irrel (map : List (List Char × List Char)) :
    ∀ (f g : Nat) (b : Bool) (cs : List Char), cs.length ≤ f → cs.length ≤ g →
      sub3Go map f b cs = sub3Go map g b cs := by
  intro f
  induction f with
  | zero =>
    intro g b cs hf _
    have hcs : cs = [] := by
      cases cs with
      | nil => rfl
      | cons c rest => simp at hf
    subst hcs
    rw [sub3Go_nil, sub3Go_nil]
  | succ f ih =>
    intro g b cs hf hg
    cases cs with
    | nil => rw [sub3Go_nil, sub3Go_nil]
    | cons c rest =>
      cases g with
      | zero => simp at hg
      | succ g =>
        have hf' : rest.length ≤ f := by simp at hf; omega
        have hg' : rest.length ≤ g := by simp at hg; omega
        cases b with
        | true =>
          rw [sub3Go_step_prev, sub3Go_step_prev, ih g (isWordC c) rest hf' hg']
        | false =>
          cases h : trySub3Core (c :: rest) with
          | none =>
            rw [sub3Go_step_none map f c rest h, sub3Go_step_none map g c rest h,
              ih g (isWordC c) rest hf' hg']
          | some p =>
            cases p with
            | mk lbl r2 =>
              have hr := trySub3Core_length _ _ _ h
              have hf2 : r2.length ≤ f := by simp at hr hf; omega
              have hg2 : r2.length ≤ g := by simp at hr hg; omega
              rw [sub3Go_step_some map f c rest lbl r2 h, sub3Go_step_some map g c rest lbl r2 h,
                ih g true r2 hf2 hg2]

/-! # Lemmas for the equation-number mapping (C3) -/

theorem newKeys_congr : ∀ (l s1 s2 : List (List Char)),
    (∀ x, x ∈ s1 ↔ x ∈ s2) → newKeys s1 l = newKeys s2 l := by
  intro l
  induction l with
  | nil => intro s1 s2 _; rfl
  | cons k ks ih =>
    intro s1 s2 h
    simp only [newKeys]
    by_cases hk : k ∈ s1
    · rw [if_pos hk, if_pos ((h k).mp hk)]
      exact ih s1 s2 h
    · rw [if_neg hk, if_neg (fun hx => hk ((h k).mpr hx))]
      rw [ih (k :: s1) (k :: s2) (by intro x; simp [List.mem_cons, h x])]

theorem mem_newKeys_not_seen : ∀ (l seen : List (List Char)) (x : List Char),
    x ∈ newKeys seen l → x ∉ seen := by
  intro l
  induction l with
  | nil => intro seen x h; simp [newKeys] at h
  | cons k ks ih =>
    intro seen x h
    simp only [newKeys] at h
    split at h
    · exact ih seen x h
    · rename_i hk
      rcases List.mem_cons.mp h with h1 | h2
      · subst h1; exact hk
      · have hx := ih (k :: seen) x h2
        exact fun hs => hx (by simp [List.mem_cons, hs])

theorem newKeys_nodup : ∀ (l seen : List (List Char)), (newKeys seen l).Nodup := by
  intro l
  induction l with
  | nil => intro seen; simp [newKeys]
  | cons k ks ih =>
    intro seen
    simp only [newKeys]
    split
    · exact ih seen
    · refine List.nodup_cons.mpr ⟨?_, ih (k :: seen)⟩
      intro hk
      exact (mem_newKeys_not_seen ks (k :: seen) k hk) (by simp)

theorem mem_newKeys_sub : ∀ (l seen : List (List Char)) (x : List Char),
    x ∈ newKeys seen l → x ∈ l := by
  intro l
  induction l with
  | nil => intro seen x h; simp [newKeys] at h
  | cons k ks ih =>
    intro seen x h
    simp only [newKeys] at h
    split at h
    · exact List.mem_cons_of_mem k (ih seen x h)
    · rcases List.mem_cons.mp h with h1 | h2
      · simp [h1]
      · exact List.mem_cons_of_mem k (ih (k :: seen) x h2)

theorem genMapGo_fst : ∀ (lines : List (List Char)) (m : List (List Char × List Char)) (n : Nat),
    (genMapGo lines m n).map Prod.fst
      = m.map Prod.fst ++ newKeys (m.map Prod.fst) (lines.filterMap matchAnchorIdLine) := by
  intro lines
  induction lines with
  | nil => intro m n; simp [genMapGo, newKeys]
  | cons line rest ih =>
    intro m n
    cases hm : matchAnchorIdLine line with
    | none =>
      simp only [genMapGo, List.filterMap_cons, hm]
      exact ih m n
    | some label =>
      simp only [genMapGo, List.filterMap_cons, hm]
      by_cases hl : (lookupL m label).isSome = true
      · rw [if_pos hl]
        have hmem : label ∈ m.map Prod.fst := (lookupL_isSome m label).mp hl
        simp only [newKeys, if_pos hmem]
        exact ih m n
      · rw [if_neg hl]
        have hmem : label ∉ m.map Prod.fst := fun hx => hl ((lookupL_isSome m label).mpr hx)
        simp only [newKeys, if_neg hmem]
        rw [ih (m ++ [(label, strL (Nat.repr n))]) (n + 1)]
        simp only [List.map_append, List.map_cons, List.map_nil, List.append_assoc,
          List.singleton_append]
        rw [newKeys_congr _ (m.map Prod.fst ++ [label]) (label :: m.map Prod.fst)
          (by intro x; simp [List.mem_append, List.mem_cons, or_comm])]

theorem genMapGo_snd : ∀ (lines : List (List Char)) (m : List (List Char × List Char)) (n : Nat),
    (genMapGo lines m n).map Prod.snd
      = m.map Prod.snd ++
        (List.range (newKeys (m.map Prod.fst) (lines.filterMap matchAnchorIdLine)).length).map
          (fun i => strL (Nat.repr (n + i))) := by
  intro lines
  induction lines with
  | nil => intro m n; simp [genMapGo, newKeys]
  | cons line rest ih =>
    intro m n
    cases hm : matchAnchorIdLine line with
    | none =>
      simp only [genMapGo, List.filterMap_cons, hm]
      exact ih m n
    | some label =>
      simp only [genMapGo, List.filterMap_cons, hm]
      by_cases hl : (lookupL m label).isSome = true
      · rw [if_pos hl]
        have hmem : label ∈ m.map Prod.fst := (lookupL_isSome m label).mp hl
        simp only [newKeys, if_pos hmem]
        exact ih m n
      · rw [if_neg hl]
        have hmem : label ∉ m.map Prod.fst := fun hx => hl ((lookupL_isSome m label).mpr hx)
        simp only [newKeys, if_neg hmem]
        rw [ih (m ++ [(label, strL (Nat.repr n))]) (n + 1)]
        have hseen : newKeys ((m ++ [(label, strL (Nat.repr n))]).map Prod.fst)
            (rest.filterMap matchAnchorIdLine)
            = newKeys (label :: m.map Prod.fst) (rest.filterMap matchAnchorIdLine) := by
          apply newKeys_congr
          intro x
          simp [List.map_append, List.mem_append, List.mem_cons, or_comm]
        rw [hseen]
        simp only [List.map_append, List.map_cons, List.map_nil, List.append_assoc,
          List.singleton_append, List.length_cons]
        congr 1
        rw [List.range_succ_eq_map, List.map_cons, List.map_map]
        simp only [Nat.add_zero]
        congr 1
        apply List.map_congr_left
        intro i _
        simp only [Function.comp_apply]
        have e : n + 1 + i = n + (i + 1) := by omega
        rw [e]

theorem matchAnchorIdLine_prefix :
    ∀ (line l : List Char), matchAnchorIdLine line = some l → ∃ t, l = strL "eq:" ++ t := by
  intro line l h
  unfold matchAnchorIdLine at h
  split at h <;> try simp at h
  split at h <;> try simp at h
  split at h <;> try simp at h
  split at h <;> try simp at h
  split at h <;> try simp at h
  obtain ⟨-, -, hl⟩ := h
  exact ⟨_, hl.symm⟩

/-! # Lemmas for the injection placement (C5) -/

theorem lastEndIdx_none_iff : ∀ (ls : List (List Char)),
    lastEndIdx ls = none ↔ ls.any (fun ln => containsStr endMarker ln) = false := by
  intro ls
  induction ls with
  | nil => simp [lastEndIdx]
  | cons l rest ih =>
    simp only [lastEndIdx, List.any_cons, Bool.or_eq_false_iff]
    cases h : lastEndIdx rest with
    | some k =>
      rw [h] at ih
      show (some (k + 1) = none) ↔ _
      constructor
      · intro hc; cases hc
      · intro hc
        cases ih.mpr hc.2
    | none =>
      rw [h] at ih
      have hrest : rest.any (fun ln => containsStr endMarker ln) = false := ih.mp rfl
      show (if containsStr endMarker l = true then some 0 else none) = none ↔ _
      by_cases hcl : containsStr endMarker l = true
      · rw [if_pos hcl]
        constructor
        · intro hc; cases hc
        · intro hc
          rw [hc.1] at hcl
          cases hcl
      · rw [if_neg hcl]
        simp only [Bool.not_eq_true] at hcl
        constructor
        · intro _; exact ⟨hcl, hrest⟩
        · intro _; rfl

theorem insertInject_spec : ∀ (lines : List (List Char)) (inj : List Char),
    insertInject lines inj =
      match lastEndIdx lines with
      | none => lines ++ [inj]
      | some k => lines.take k ++ inj :: lines.drop k := by
  intro lines
  induction lines with
  | nil => intro inj; rfl
  | cons l rest ih =>
    intro inj
    simp only [insertInject]
    by_cases hr : rest.any (fun ln => containsStr endMarker ln) = true
    · rw [if_pos hr]
      have hk : ∃ k, lastEndIdx rest = some k := by
        cases h : lastEndIdx rest with
        | none =>
          rw [(lastEndIdx_none_iff rest).mp h] at hr
          cases hr
        | some k => exact ⟨k, rfl⟩
      obtain ⟨k, hk⟩ := hk
      have hcons : lastEndIdx (l :: rest) = some (k + 1) := by
        simp only [lastEndIdx, hk]
      rw [ih inj, hk, hcons]
      simp only [List.take_succ_cons, List.drop_succ_cons, List.cons_append]
    · rw [if_neg hr]
      have hnone : lastEndIdx rest = none :=
        (lastEndIdx_none_iff rest).mpr (by simpa using hr)
      by_cases hl : containsStr endMarker l = true
      · rw [if_pos hl]
        have hcons : lastEndIdx (l :: rest) = some 0 := by
          simp only [lastEndIdx, hnone, if_pos hl]
        rw [hcons]
        simp
      · rw [if_neg hl]
        have hcons : lastEndIdx (l :: rest) = none := by
          simp only [lastEndIdx, hnone, if_neg hl]
        rw [ih inj, hnone, hcons]
        simp

/-! # Lemmas for `--label-type` validation (C6) -/

theorem validateLabelType_error (s : String) (h : isWellFormedLabelType s = false) :
    ∃ e, validateLabelType s = Except.error e := by
  unfold isWellFormedLabelType at h
  simp only [Bool.or_eq_false_iff, Bool.and_eq_false_iff] at h
  obtain ⟨⟨htag, hp⟩, hq⟩ := h
  unfold validateLabelType
  by_cases hqs : startsWithL (strL "quadd:") s.data = true
  · rw [if_pos hqs]
    cases hpi : pythonInt (s.data.drop 6) with
    | none => exact ⟨_, rfl⟩
    | some n =>
      have hn : n ≤ 0 := by
        have h3 : ¬(0 < n) := by
          cases hq with
          | inl h2 => rw [hqs] at h2; cases h2
          | inr h2 =>
            rw [hpi] at h2
            simpa using h2
        omega
      refine ⟨"Error: --label-type quadd:<n> requires a positive integer n.", ?_⟩
      show (if n ≤ 0 then
          (Except.error "Error: --label-type quadd:<n> requires a positive integer n." :
            Except String (String × Int))
        else Except.ok ("quadd", n)) = _
      rw [if_pos hn]
  · rw [if_neg hqs]
    rw [if_neg (by simpa using hp), if_neg (by simpa using htag)]
    exact ⟨_, rfl⟩

theorem runMain_error (rp klb : Bool) (arg input : String) (e : String)
    (h : validateLabelType arg = Except.error e) :
    runMain rp klb arg input = ⟨"", e ++ "\n", 1⟩ := by
  unfold runMain
  rw [h]

/-! # Head-match and transfer helpers -/

theorem data_mk (l : List Char) : (String.mk l).data = l := rfl

theorem subGo_head_match (m : List Char → Option (List Char × List Char))
    (hm : ∀ cs a r, m cs = some (a, r) → r.length < cs.length)
    (cs a r : List Char) (f : Nat) (h : m cs = some (a, r)) (hne : cs ≠ [])
    (hf : cs.length ≤ f) : subGo m f cs = a ++ subGo m r.length r := by
  cases cs with
  | nil => exact absurd rfl hne
  | cons c rest =>
    cases f with
    | zero => simp at hf
    | succ f =>
      rw [subGo_step_some f h]
      congr 1
      have hr := hm _ _ _ h
      exact subGo_irrel m hm f r.length r (by simp at hr hf ⊢; omega) le_rfl

theorem sub3Go_head_match (map : List (List Char × List Char)) (cs lbl r2 : List Char) (f : Nat)
    (h : trySub3Core cs = some (lbl, r2)) (hne : cs ≠ []) (hf : cs.length ≤ f) :
    sub3Go map f false cs = sub3Out map lbl ++ sub3Go map r2.length true r2 := by
  cases cs with
  | nil => exact absurd rfl hne
  | cons c rest =>
    cases f with
    | zero => simp at hf
    | succ f =>
      rw [sub3Go_step_some map f c rest lbl r2 h]
      congr 1
      have hr := trySub3Core_length _ _ _ h
      exact sub3Go_irrel map f r2.length true r2 (by simp at hr hf ⊢; omega) le_rfl

theorem hasMatch_anchor_transfer (rp klb : Bool) :
    ∀ cs : List Char, hasMatchGo (tryAnchor rp klb) cs = hasMatchGo tryAnchorCore cs := by
  intro cs
  induction cs with
  | nil => rfl
  | cons c rest ih =>
    simp only [hasMatchGo, ih]
    congr 1
    unfold tryAnchor
    cases h : tryAnchorCore (c :: rest) with
    | none => simp
    | some p => cases p with | mk lbl r => simp

theorem tryAnchor_construct (rp klb : Bool) (href attrs vis post : List Char)
    (hhne : href ≠ []) (hh : '\"' ∉ href) (ha : '>' ∉ attrs)
    (hvne : vis ≠ []) (hv : ']' ∉ vis) :
    tryAnchor rp klb (anchorConstruct href attrs vis ++ post)
      = some (anchorOut rp klb href, dropParen post) := by
  unfold tryAnchor
  rw [tryAnchorCore_construct href attrs vis post hhne hh ha hvne hv]

theorem tryAnchor_construct_paren (rp klb : Bool) (href attrs vis post : List Char)
    (hhne : href ≠ []) (hh : '\"' ∉ href) (ha : '>' ∉ attrs)
    (hvne : vis ≠ []) (hv : ']' ∉ vis) :
    tryAnchor rp klb ('(' :: (anchorConstruct href attrs vis ++ (')' :: post)))
      = some (anchorOut rp klb href, post) := by
  unfold tryAnchor
  rw [tryAnchorCore_construct_paren href attrs vis post hhne hh ha hvne hv]

theorem anchorConstruct_ne_nil (href attrs vis post : List Char) :
    anchorConstruct href attrs vis ++ post ≠ [] := by
  rw [anchorConstruct_head]
  simp

theorem refConstruct1_ne_nil (x y rest : List Char) : refConstruct1 x y ++ rest ≠ [] := by
  have e : refConstruct1 x y ++ rest = '[' :: (strL "eq:" ++ x ++ strL "](#eq:" ++ y ++ strL ")" ++ rest) := by
    simp only [refConstruct1, List.append_assoc, List.cons_append, List.nil_append]
    rfl
  rw [e]
  simp

theorem refConstruct2_ne_nil (x y rest : List Char) : refConstruct2 x y ++ rest ≠ [] := by
  have e : refConstruct2 x y ++ rest = '[' :: (strL "[eq:" ++ x ++ strL "]](#eq:" ++ y ++ strL ")" ++ rest) := by
    simp only [refConstruct2, List.append_assoc, List.cons_append, List.nil_append]
    rfl
  rw [e]
  simp

/-! # Claim theorems -/

/-- C3: for every input text, `generate_equation_number_mapping` produces a map whose keys are
exactly the distinct anchor ids found scanning top-to-bottom, in first-occurrence order (the
first-occurrence deduplication `newKeys [] (anchorIds text)` of the full scan — so
re-encountering an already-seen id creates no new entry), with no duplicate keys; every key
carries the `eq:` prefix; and the values are the decimal strings of the dense consecutive
integers `1..N` with no gaps or reordering. -/
theorem C3_map_keys_first_occurrence_values_dense (text : String) :
    (generate_equation_number_mapping text).map Prod.fst = newKeys [] (anchorIds text) ∧
    ((generate_equation_number_mapping text).map Prod.fst).Nodup ∧
    (generate_equation_number_mapping text).map Prod.snd
      = (List.range (newKeys [] (anchorIds text)).length).map (fun i => strL (Nat.repr (1 + i))) ∧
    (∀ k ∈ (generate_equation_number_mapping text).map Prod.fst, ∃ t, k = strL "eq:" ++ t) := by
  unfold generate_equation_number_mapping anchorIds
  have hfst := genMapGo_fst (splitlines text.data) [] 1
  have hsnd := genMapGo_snd (splitlines text.data) [] 1
  simp only [List.map_nil, List.nil_append] at hfst hsnd
  refine ⟨hfst, ?_, hsnd, ?_⟩
  · rw [hfst]
    exact newKeys_nodup _ _
  · intro k hk
    rw [hfst] at hk
    have hmem := mem_newKeys_sub _ _ _ hk
    obtain ⟨line, -, hline⟩ := List.mem_filterMap.mp hmem
    exact matchAnchorIdLine_prefix line k hline

/-- C5: in the display-math reformatter the injection routine (used for both labeled modes
"tag" and "quadd") inserts the built injection line as a new line immediately before the last
line of the label-stripped content containing the end-of-environment marker `\end{`, and
appends it as the final line when no such line exists; two end-to-end runs check the placement
inside a processed document: mode "tag" with a marker line (inserted before `\end{aligned}`)
and mode "quadd:2" without one (appended last). -/
theorem C5_injection_before_last_end_line (lines : List (List Char)) (inj : List Char) :
    (insertInject lines inj =
      match lastEndIdx lines with
      | none => lines ++ [inj]
      | some k => lines.take k ++ inj :: lines.drop k) ∧
    process_latex_labeled_math "$$\n\\begin\x7baligned\x7d\nx\n\\end\x7baligned\x7d \\label\x7beq:c\x7d\n$$"
        false false "tag" 0
      = "\n<a id=\"eq:c\"></a>\n```math\n\\begin\x7baligned\x7d\nx\n\\tag\x7beq:c\x7d\n\\end\x7baligned\x7d\n```\n" ∧
    process_latex_labeled_math "$$x+y\\label\x7beq:a\x7d$$" false false "quadd" 2
      = "\n<a id=\"eq:a\"></a>\n```math\nx+y\n\\qquad\\qquad\\text\x7b(eq:a)\x7d\n```\n" :=
  ⟨insertInject_spec lines inj, by decide, by decide⟩

/-- C6: if the `--label-type` argument is malformed — not `tag`, not `p`, and not `quadd:<n>`
with a positive parseable integer `n` — the program writes zero bytes to standard output,
writes a diagnostic to standard error, and exits with nonzero status (1), performing no
transformation. -/
theorem C6_malformed_label_type_fails_fast (rp klb : Bool) (arg input : String)
    (h : isWellFormedLabelType arg = false) :
    (runMain rp klb arg input).stdout = "" ∧ (runMain rp klb arg input).exitCode = 1 ∧
      (runMain rp klb arg input).stderr ≠ "" := by
  obtain ⟨e, he⟩ := validateLabelType_error arg h
  rw [runMain_error rp klb arg input e he]
  refine ⟨rfl, rfl, ?_⟩
  intro hc
  have h2 := congrArg String.length hc
  rw [String.length_append] at h2
  have h3 : ("\n" : String).length = 1 := rfl
  have h4 : ("" : String).length = 0 := rfl
  omega

/-- C6 witness: the malformed arguments `xyz`, `quadd:0` and `quadd:-1` each produce empty
stdout, a stderr diagnostic, and exit status 1. -/
theorem C6_malformed_label_type_fails_fast_witness :
    (isWellFormedLabelType "xyz" = false ∧ (runMain false false "xyz" "x").stdout = "" ∧
      (runMain false false "xyz" "x").exitCode = 1 ∧ (runMain false false "xyz" "x").stderr ≠ "") ∧
    (isWellFormedLabelType "quadd:0" = false ∧ (runMain false false "quadd:0" "x").stdout = "") ∧
    (isWellFormedLabelType "quadd:-1" = false ∧ (runMain false false "quadd:-1" "x").stdout = "") :=
  ⟨⟨by decide, C6_malformed_label_type_fails_fast false false "xyz" "x" (by decide)⟩,
   ⟨by decide, (C6_malformed_label_type_fails_fast false false "quadd:0" "x" (by decide)).1⟩,
   ⟨by decide, (C6_malformed_label_type_fails_fast false false "quadd:-1" "x" (by decide)).1⟩⟩

/-- C9: the Reference Normalizer — the `\ref`/`\eqref` rewrite followed by
`simplify_pandoc_html_references` — returns any input unchanged when neither pattern matches
anywhere in it (no recognized reference constructs), for every flag combination. -/
theorem C9_normalizer_identity_without_constructs (rp klb : Bool) (text : String)
    (h1 : hasMatchGo tryRefCore text.data = false)
    (h2 : hasMatchGo tryAnchorCore text.data = false) :
    referenceNormalizer rp klb text = text := by
  unfold referenceNormalizer simplify_pandoc_html_references simplifyL refSubL
  simp only [data_mk]
  rw [subGo_id tryRefCore _ _ h1]
  rw [subGo_id (tryAnchor rp klb) _ _ (by rw [hasMatch_anchor_transfer]; exact h2)]

/-- C9 witness: the normalizer leaves a construct-free text unchanged. -/
theorem C9_normalizer_identity_without_constructs_witness :
    hasMatchGo tryRefCore (String.data "plain text, $x+y$, no refs") = false ∧
    hasMatchGo tryAnchorCore (String.data "plain text, $x+y$, no refs") = false ∧
    referenceNormalizer false false "plain text, $x+y$, no refs" = "plain text, $x+y$, no refs" :=
  ⟨by decide, by decide,
    C9_normalizer_identity_without_constructs false false "plain text, $x+y$, no refs"
      (by decide) (by decide)⟩

/-- C7: after the display-math pass, every span delimited by single dollars is rewritten to the
backtick-quoted inline form with the content preserved verbatim: with no dollar in the scanned
prefix `a` nor inside the span content `b` (the non-greedy group stops at the first closing
dollar), the pass maps `a ++ $b$ ++ c` to `a ++ $\x60b\x60$ ++ (pass c)`; and end-to-end,
`$$x+y$$ and $\alpha$` fences the display block untouched and rewrites the adjacent inline
span to the backtick form. -/
theorem C7_inline_dollar_backtick_rewrite (a b c : List Char) (ha : '$' ∉ a) (hb : '$' ∉ b) :
    dollarL (a ++ '$' :: (b ++ '$' :: c))
      = a ++ strL "$`" ++ b ++ strL "`$" ++ dollarL c ∧
    process_latex_labeled_math "$$x+y$$ and $\\alpha$" false false "tag" 0
      = "\n```math\nx+y\n```\n and $`\\alpha`$" := by
  constructor
  · unfold dollarL
    rw [subGo_through tryDollar tryDollar_length a ('$' :: (b ++ '$' :: c))
      (fun ch hch t => tryDollar_nostart ch t (fun e => ha (e ▸ hch))) _ le_rfl]
    rw [subGo_head_match tryDollar tryDollar_length _ _ _ _ (tryDollar_front b c hb)
      (by simp) le_rfl]
    simp [List.append_assoc]
  · decide

/-- C7 witness: a concrete inline span is rewritten verbatim with the prefix untouched. -/
theorem C7_inline_dollar_backtick_rewrite_witness :
    dollarL (strL "x " ++ '$' :: (strL "\\alpha" ++ '$' :: strL " y"))
      = strL "x " ++ strL "$`" ++ strL "\\alpha" ++ strL "`$" ++ dollarL (strL " y") :=
  (C7_inline_dollar_backtick_rewrite (strL "x ") (strL "\\alpha") (strL " y")
    (by decide) (by decide)).1

set_option maxHeartbeats 2000000 in
/-- C10: in `simplify_pandoc_html_references` the label of the rewritten link is taken solely
from the anchor's href fragment and the bracketed visible text is discarded: two input texts
that differ only in the visible bracketed text of a recognized anchor construct (same href,
same attributes, same surrounding text, the prefix containing no character that can start a
match of the pattern) produce identical outputs, for every flag combination. -/
theorem C10_rewrite_depends_only_on_href (rp klb : Bool)
    (pre href attrs vis1 vis2 post : List Char)
    (hpre : ∀ c ∈ pre, cannotStartAnchor c = true)
    (hhne : href ≠ []) (hh : '\"' ∉ href) (ha : '>' ∉ attrs)
    (hv1ne : vis1 ≠ []) (hv1 : ']' ∉ vis1) (hv2ne : vis2 ≠ []) (hv2 : ']' ∉ vis2) :
    simplify_pandoc_html_references
        (String.mk (pre ++ anchorConstruct href attrs vis1 ++ post)) rp klb
      = simplify_pandoc_html_references
        (String.mk (pre ++ anchorConstruct href attrs vis2 ++ post)) rp klb := by
  unfold simplify_pandoc_html_references simplifyL
  simp only [data_mk]
  rw [List.append_assoc, List.append_assoc]
  have hc : ∀ c ∈ pre, ∀ t, tryAnchor rp klb (c :: t) = none :=
    fun c hcp t => tryAnchor_nostart rp klb c t (hpre c hcp)
  rw [subGo_through _ (tryAnchor_length rp klb) pre _ hc _ le_rfl,
      subGo_through _ (tryAnchor_length rp klb) pre _ hc _ le_rfl]
  congr 1
  rw [subGo_head_match _ (tryAnchor_length rp klb) _ _ _ _
        (tryAnchor_construct rp klb href attrs vis1 post hhne hh ha hv1ne hv1)
        (anchorConstruct_ne_nil href attrs vis1 post) le_rfl,
      subGo_head_match _ (tryAnchor_length rp klb) _ _ _ _
        (tryAnchor_construct rp klb href attrs vis2 post hhne hh ha hv2ne hv2)
        (anchorConstruct_ne_nil href attrs vis2 post) le_rfl]

/-- C10 witness: changing only the visible text of a concrete anchor construct leaves the
output unchanged. -/
theorem C10_rewrite_depends_only_on_href_witness :
    simplify_pandoc_html_references
        (String.mk (strL "see " ++ anchorConstruct (strL "eq:7") (strL "u=\"v\"")
          (strL "eq:OLD") ++ strL "!")) false false
      = simplify_pandoc_html_references
        (String.mk (strL "see " ++ anchorConstruct (strL "eq:7") (strL "u=\"v\"")
          (strL "zz") ++ strL "!")) false false :=
  C10_rewrite_depends_only_on_href false false (strL "see ") (strL "eq:7") (strL "u=\"v\"")
    (strL "eq:OLD") (strL "zz") (strL "!") (by decide) (by decide) (by decide) (by decide)
    (by decide) (by decide) (by decide) (by decide)

/-- C1 counterexample: for the anchored reference `[eq:a](#eq:a)` the pipeline yields
`[1](#1)`: the output contains no `(#eq:a)` at all, so the link target is not left pointing at
the original label, contradicting the claimed result `[1](#eq:a)`. -/
theorem C1_counterexample_target_not_preserved :
    substitute_equation_numbers
        (generate_equation_number_mapping "<a id=\"eq:a\"></a>\n[eq:a](#eq:a)")
        "<a id=\"eq:a\"></a>\n[eq:a](#eq:a)"
      = "<a id=\"1\"></a>\n[1](#1)" ∧
    containsStr (strL "(#eq:a)")
        (substitute_equation_numbers
          (generate_equation_number_mapping "<a id=\"eq:a\"></a>\n[eq:a](#eq:a)")
          "<a id=\"eq:a\"></a>\n[eq:a](#eq:a)").data = false ∧
    substitute_equation_numbers
        (generate_equation_number_mapping "<a id=\"eq:a\"></a>\n[eq:a](#eq:a)")
        "<a id=\"eq:a\"></a>\n[eq:a](#eq:a)"
      ≠ "<a id=\"eq:a\"></a>\n[1](#eq:a)" :=
  ⟨by decide, by decide, by decide⟩

/-- C1 (amended): the bracketed-reference pass alone replaces only the visible label with the
number mapped to the href label and leaves the link target pointing at the original label
(`[eq:x](#eq:y)` becomes `[n](#eq:y)`); but the subsequent standalone pass then rewrites the
mapped label inside the anchor fragment as well, so for input containing `[eq:a](#eq:a)` where
`eq:a` is anchored, the final output of `substitute_equation_numbers` is `[1](#1)`. -/
theorem C1_amended_pass1_keeps_target_final_rewrites (map : List (List Char × List Char))
    (x y n rest : List Char)
    (hxne : x ≠ []) (hx : ']' ∉ x) (hyne : y ≠ []) (hy : ')' ∉ y)
    (hlook : lookupL map (strL "eq:" ++ y) = some n) (hn : n ≠ []) :
    sub1L map (refConstruct1 x y ++ rest)
      = strL "[" ++ n ++ strL "](#" ++ (strL "eq:" ++ y) ++ strL ")" ++ sub1L map rest ∧
    substitute_equation_numbers [(strL "eq:a", strL "1")] "[eq:a](#eq:a)" = "[1](#1)" := by
  constructor
  · have hne : n.isEmpty = false := by
      cases n with
      | nil => exact absurd rfl hn
      | cons c t => rfl
    have hmatch : sub1Repl map (refConstruct1 x y ++ rest)
        = some (strL "[" ++ n ++ strL "](#" ++ (strL "eq:" ++ y) ++ strL ")", rest) := by
      simp [sub1Repl, trySub1Core_construct x y rest hxne hx hyne hy, sub1Out, hlook, hne,
        List.append_assoc]
    unfold sub1L
    rw [subGo_head_match (sub1Repl map) (sub1Repl_length map) _ _ _ _ hmatch
      (refConstruct1_ne_nil x y rest) le_rfl]
  · decide

/-- C1 witness: the bracketed pass on a concrete mapped reference keeps the target. -/
theorem C1_amended_pass1_keeps_target_final_rewrites_witness :
    sub1L [(strL "eq:a", strL "1")] (refConstruct1 (strL "b") (strL "a") ++ strL " t")
      = strL "[" ++ strL "1" ++ strL "](#" ++ (strL "eq:" ++ strL "a") ++ strL ")"
        ++ sub1L [(strL "eq:a", strL "1")] (strL " t") :=
  (C1_amended_pass1_keeps_target_final_rewrites [(strL "eq:a", strL "1")] (strL "b") (strL "a")
    (strL "1") (strL " t") (by decide) (by decide) (by decide) (by decide) (by decide)
    (by decide)).1

/-- C4 counterexample: `[eq:a](#eq:b)` has an unmapped href label (`eq:b`), yet with `eq:a`
mapped to 1 the construct is NOT left character-for-character untouched: the standalone pass
rewrites the mapped visible label, producing `[1](#eq:b)`. -/
theorem C4_counterexample_construct_not_untouched :
    substitute_equation_numbers [(strL "eq:a", strL "1")] "[eq:a](#eq:b)" = "[1](#eq:b)" ∧
    ("[1](#eq:b)" : String) ≠ "[eq:a](#eq:b)" :=
  ⟨by decide, by decide⟩

/-- C4 (amended): a bracketed construct whose href label is unmapped is left untouched by the
single-bracket pass and by the double-bracket pass (each emits the matched text verbatim and
moves on), and an unmapped standalone word-boundary label is left as the raw label text by the
standalone pass; but the standalone pass still rewrites any mapped `eq:` label occurring
inside such a construct, so the whole construct stays untouched end-to-end only when its
visible label is also unmapped (checked end-to-end on `[eq:q](#eq:b) and eq:c` with only
`eq:a` mapped). -/
theorem C4_amended_unmapped_untouched_per_pass (map : List (List Char × List Char))
    (x y ident rest : List Char)
    (hxne : x ≠ []) (hx : ']' ∉ x) (hyne : y ≠ []) (hy : ')' ∉ y)
    (hlook : lookupL map (strL "eq:" ++ y) = none)
    (hine : ident ≠ []) (hiall : ∀ c ∈ ident, isLabelC c = true)
    (hilast : isWordC (ident.reverse.headD 'A') = true)
    (hirest : isLabelC (rest.headD ' ') = false)
    (hlook3 : lookupL map (strL "eq:" ++ ident) = none) :
    sub1L map (refConstruct1 x y ++ rest) = refConstruct1 x y ++ sub1L map rest ∧
    sub2L map (refConstruct2 x y ++ rest) = refConstruct2 x y ++ sub2L map rest ∧
    sub3L map (strL "eq:" ++ (ident ++ rest))
      = strL "eq:" ++ (ident ++ sub3Go map rest.length true rest) ∧
    substitute_equation_numbers [(strL "eq:a", strL "1")] "[eq:q](#eq:b) and eq:c"
      = "[eq:q](#eq:b) and eq:c" := by
  refine ⟨?_, ?_, ?_, by decide⟩
  · have c3 : strL "](#eq:" = strL "](#" ++ strL "eq:" := rfl
    have hmatch : sub1Repl map (refConstruct1 x y ++ rest)
        = some (refConstruct1 x y, rest) := by
      unfold sub1Repl
      rw [trySub1Core_construct x y rest hxne hx hyne hy]
      simp [sub1Out, hlook, refConstruct1, c3, List.append_assoc]
    unfold sub1L
    rw [subGo_head_match (sub1Repl map) (sub1Repl_length map) _ _ _ _ hmatch
      (refConstruct1_ne_nil x y rest) le_rfl]
  · have c3 : strL "]](#eq:" = strL "]](#" ++ strL "eq:" := rfl
    have hmatch : sub2Repl map (refConstruct2 x y ++ rest)
        = some (refConstruct2 x y, rest) := by
      unfold sub2Repl
      rw [trySub2Core_construct x y rest hxne hx hyne hy]
      simp [sub2Out, hlook, refConstruct2, c3, List.append_assoc]
    unfold sub2L
    rw [subGo_head_match (sub2Repl map) (sub2Repl_length map) _ _ _ _ hmatch
      (refConstruct2_ne_nil x y rest) le_rfl]
  · have hne3 : strL "eq:" ++ (ident ++ rest) ≠ [] := by
      intro hcontra
      have h2 := congrArg List.length hcontra
      rw [List.length_append] at h2
      have h3 : (strL "eq:").length = 3 := rfl
      rw [h3, List.length_nil] at h2
      omega
    unfold sub3L
    rw [sub3Go_head_match map _ _ _ _
      (trySub3Core_front ident rest hine hiall hilast hirest) hne3 le_rfl]
    simp [sub3Out, hlook3, List.append_assoc]

/-- C4 witness: a concrete unmapped-href construct passes through the bracketed pass
verbatim. -/
theorem C4_amended_unmapped_untouched_per_pass_witness :
    lookupL [(strL "eq:a", strL "1")] (strL "eq:" ++ strL "b") = none ∧
    sub1L [(strL "eq:a", strL "1")] (refConstruct1 (strL "q") (strL "b") ++ strL " t")
      = refConstruct1 (strL "q") (strL "b") ++ sub1L [(strL "eq:a", strL "1")] (strL " t") :=
  ⟨by decide,
   (C4_amended_unmapped_untouched_per_pass [(strL "eq:a", strL "1")] (strL "q") (strL "b")
     (strL "c") (strL " t") (by decide) (by decide) (by decide) (by decide) (by decide)
     (by decide) (by decide) (by decide) (by decide) (by decide)).1⟩

/-- C2 counterexample: with `keep_link_brackets = false` the anchor rewrite emits SINGLE
brackets (`[eq:1010](#eq:1010)`), not the double brackets the claim states; with the flag
`true` it emits double brackets.  (Shown with `remove_parens = true` for an unwrapped link.) -/
theorem C2_counterexample_bracket_flag_inverted :
    simplify_pandoc_html_references
        "<a href=\"#eq:1010\" data-reference-type=\"ref\" data-reference=\"eq:1010\">[eq:1010]</a>"
        true false
      = "[eq:1010](#eq:1010)" ∧
    ("[eq:1010](#eq:1010)" : String) ≠ "[[eq:1010]](#eq:1010)" ∧
    simplify_pandoc_html_references
        "<a href=\"#eq:1010\" data-reference-type=\"ref\" data-reference=\"eq:1010\">[eq:1010]</a>"
        true true
      = "[[eq:1010]](#eq:1010)" :=
  ⟨by decide, by decide, by decide⟩

/-- C2 (amended): the polarity is the reverse of the claim: when `keep_link_brackets` is TRUE
the emitted display text uses double brackets `[[label]]`, and when it is FALSE (the default,
when the flag is omitted) it uses single brackets `[label]` — shown on an arbitrary
well-formed anchor construct with `remove_parens = true`. -/
theorem C2_amended_true_gives_double_brackets (href attrs vis post : List Char)
    (hhne : href ≠ []) (hh : '\"' ∉ href) (ha : '>' ∉ attrs) (hvne : vis ≠ []) (hv : ']' ∉ vis) :
    simplifyL true true (anchorConstruct href attrs vis ++ post)
      = strL "[[" ++ href ++ strL "]]" ++ strL "(#" ++ href ++ strL ")"
        ++ simplifyL true true (dropParen post) ∧
    simplifyL true false (anchorConstruct href attrs vis ++ post)
      = strL "[" ++ href ++ strL "]" ++ strL "(#" ++ href ++ strL ")"
        ++ simplifyL true false (dropParen post) := by
  constructor
  · unfold simplifyL
    rw [subGo_head_match _ (tryAnchor_length true true) _ _ _ _
      (tryAnchor_construct true true href attrs vis post hhne hh ha hvne hv)
      (anchorConstruct_ne_nil href attrs vis post) le_rfl]
    simp [anchorOut, List.append_assoc]
  · unfold simplifyL
    rw [subGo_head_match _ (tryAnchor_length true false) _ _ _ _
      (tryAnchor_construct true false href attrs vis post hhne hh ha hvne hv)
      (anchorConstruct_ne_nil href attrs vis post) le_rfl]
    simp [anchorOut, List.append_assoc]

/-- C2 witness: a concrete well-formed construct, rewritten under both flag values. -/
theorem C2_amended_true_gives_double_brackets_witness :
    simplifyL true true (anchorConstruct (strL "eq:1") (strL "d") (strL "v") ++ strL ".")
      = strL "[[" ++ strL "eq:1" ++ strL "]]" ++ strL "(#" ++ strL "eq:1" ++ strL ")"
        ++ simplifyL true true (dropParen (strL ".")) :=
  (C2_amended_true_gives_double_brackets (strL "eq:1") (strL "d") (strL "v") (strL ".")
    (by decide) (by decide) (by decide) (by decide) (by decide)).1

/-- C8: in the anchor-link rewrite, on a parenthesized construct with `remove_parens = true`
the wrapping parentheses are dropped from the output; with `remove_parens = false` the
rewritten link is wrapped in parentheses; the pattern also matches the construct without
surrounding parentheses (rewriting it, and consuming a following `)` via the optional trailing
paren); and matching is case-insensitive (`<A HREF=...>...</A>` is rewritten). -/
theorem C8_parens_dropped_or_preserved (klb : Bool) (href attrs vis post : List Char)
    (hhne : href ≠ []) (hh : '\"' ∉ href) (ha : '>' ∉ attrs) (hvne : vis ≠ []) (hv : ']' ∉ vis) :
    simplifyL true klb ('(' :: (anchorConstruct href attrs vis ++ (')' :: post)))
      = (if klb then strL "[[" ++ href ++ strL "]]" else strL "[" ++ href ++ strL "]")
        ++ strL "(#" ++ href ++ strL ")" ++ simplifyL true klb post ∧
    simplifyL false klb ('(' :: (anchorConstruct href attrs vis ++ (')' :: post)))
      = strL "(" ++ ((if klb then strL "[[" ++ href ++ strL "]]" else strL "[" ++ href ++ strL "]")
        ++ strL "(#" ++ href ++ strL ")") ++ strL ")" ++ simplifyL false klb post ∧
    simplifyL true klb (anchorConstruct href attrs vis ++ post)
      = (if klb then strL "[[" ++ href ++ strL "]]" else strL "[" ++ href ++ strL "]")
        ++ strL "(#" ++ href ++ strL ")" ++ simplifyL true klb (dropParen post) ∧
    simplify_pandoc_html_references "(<A HREF=\"#eq:Z\" PROP=\"1\">[w]</A>)" false false
      = "([eq:Z](#eq:Z))" := by
  refine ⟨?_, ?_, ?_, by decide⟩
  · unfold simplifyL
    rw [subGo_head_match _ (tryAnchor_length true klb) _ _ _ _
      (tryAnchor_construct_paren true klb href attrs vis post hhne hh ha hvne hv)
      (by simp) le_rfl]
    cases klb <;> simp [anchorOut, List.append_assoc]
  · unfold simplifyL
    rw [subGo_head_match _ (tryAnchor_length false klb) _ _ _ _
      (tryAnchor_construct_paren false klb href attrs vis post hhne hh ha hvne hv)
      (by simp) le_rfl]
    cases klb <;> simp [anchorOut, List.append_assoc]
  · unfold simplifyL
    rw [subGo_head_match _ (tryAnchor_length true klb) _ _ _ _
      (tryAnchor_construct true klb href attrs vis post hhne hh ha hvne hv)
      (anchorConstruct_ne_nil href attrs vis post) le_rfl]
    cases klb <;> simp [anchorOut, List.append_assoc]

/-- C8 witness: a concrete parenthesized construct, with parentheses dropped and preserved. -/
theorem C8_parens_dropped_or_preserved_witness :
    simplifyL true false ('(' :: (anchorConstruct (strL "eq:2") (strL "d") (strL "v")
        ++ (')' :: strL " x")))
      = (if false then strL "[[" ++ strL "eq:2" ++ strL "]]" else strL "[" ++ strL "eq:2" ++ strL "]")
        ++ strL "(#" ++ strL "eq:2" ++ strL ")" ++ simplifyL true false (strL " x") :=
  (C8_parens_dropped_or_preserved false (strL "eq:2") (strL "d") (strL "v") (strL " x")
    (by decide) (by decide) (by decide) (by decide) (by decide)).1
